import Mathlib

/-!
Shallow embedding of the pixel-art palette repository
(src/test.py, src/calculate_cost.py, src/ring_lord_palette_creation.py).

Python integers are modelled as `ℤ`/`ℕ`, Python floats as exact real
(`ℝ`) or rational (`ℚ`) arithmetic, Python `None`/runtime errors as
`Option`.  Python dictionaries are modelled as insertion-ordered
association lists with replace-on-duplicate-key semantics.
-/

namespace PixelArt

/-- RGB triples as passed around by the scripts (Python ints). -/
abbrev RGB : Type := ℤ × ℤ × ℤ

/-- Squared Euclidean distance computed inside `closest_color_euclidean`
(src/test.py line 82): `(r1-r2)**2 + (g1-g2)**2 + (b1-b2)**2`. -/
def distE (c1 c2 : RGB) : ℤ :=
  (c1.1 - c2.1) ^ 2 + (c1.2.1 - c2.2.1) ^ 2 + (c1.2.2 - c2.2.2) ^ 2

/-- One iteration of the loop of `closest_color_euclidean`
(src/test.py lines 78-87).  The accumulator mirrors the pair
`(closest_color, min_distance)`; `min_distance` starts as `float('inf')`,
modelled by `none`, and every integer distance satisfies
`distance < float('inf')`, so a `none` accumulator is always replaced. -/
def ccStep (input_color : RGB) (acc : Option RGB × Option ℤ) (color : RGB) :
    Option RGB × Option ℤ :=
  let distance := distE input_color color
  match acc.2 with
  | none => (some color, some distance)
  | some m => if distance < m then (some color, some distance) else acc

/-- Embedding of `closest_color_euclidean` (src/test.py lines 68-90):
fold the loop body over the palette starting from
`closest_color = None`, `min_distance = float('inf')` and return the
`closest_color` component. -/
def closest_color_euclidean (input_color : RGB) (palette : List RGB) : Option RGB :=
  (palette.foldl (ccStep input_color) (none, none)).1

/-- Embedding of the per-pixel loop of `apply_palette`
(src/test.py lines 244-249): each pixel is replaced by
`color_selection_func(pixel, list(palette.values()))` and written with
`putpixel`.  When the selection function returns `None` (empty palette),
`putpixel` raises a `TypeError`; the aborted run is modelled as `none`. -/
def apply_palette_loop (palette : List RGB) : List RGB → Option (List RGB)
  | [] => some []
  | p :: ps =>
    match closest_color_euclidean p palette with
    | none => none
    | some c => Option.map (fun rest => c :: rest) (apply_palette_loop palette ps)

/-- Dictionary update `out[color] += 1` / `out[color] = 1` used by
`rings_by_color` (src/calculate_cost.py lines 41-44), on an
insertion-ordered association list. -/
def bumpColor (h : List (RGB × ℕ)) (c : RGB) : List (RGB × ℕ) :=
  match h with
  | [] => [(c, 1)]
  | (k, n) :: t => if k = c then (k, n + 1) :: t else (k, n) :: bumpColor t c

/-- Embedding of `rings_by_color` (src/calculate_cost.py lines 32-46):
count the pixels of the (already quantized) image by color.  The script
keys the dictionary by the 6-hex-digit rendering of the pixel, which is
injective on byte triples, so the color triple itself is used as key. -/
def rings_by_color (pixels : List RGB) : List (RGB × ℕ) :=
  pixels.foldl bumpColor []

/-- Total of the counts of a histogram. -/
def sumCounts {α : Type} (h : List (α × ℕ)) : ℕ :=
  (h.map Prod.snd).sum

/-- Module-level setting `rings_per_bag = 300`
(src/calculate_cost.py line 11). -/
def rings_per_bag : ℕ := 300

/-- Module-level setting `cost_per_bag_matte = 7.58`
(src/calculate_cost.py line 12). -/
def cost_per_bag_matte : ℚ := 7.58

/-- Module-level setting `cost_per_bag_bright = 9.12`
(src/calculate_cost.py line 13). -/
def cost_per_bag_bright : ℚ := 9.12

/-- Auxiliary for substring containment: does the second list start with
the first one? -/
def startsWithChars : List Char → List Char → Bool
  | [], _ => true
  | _ :: _, [] => false
  | n :: ns, h :: t => n == h && startsWithChars ns t

/-- Substring containment on character lists, the semantics of Python's
`needle in haystack` for strings. -/
def containsChars (needle : List Char) : List Char → Bool
  | [] => needle.isEmpty
  | h :: t => startsWithChars needle (h :: t) || containsChars needle t

/-- The test `"matte" in name` of src/calculate_cost.py line 78. -/
def hasMatte (name : String) : Bool :=
  containsChars "matte".toList name.toList

/-- Python dictionary assignment `d[k] = v`: replace the value of an
existing key in place, otherwise append the pair. -/
def dictInsert {α β : Type} [DecidableEq α] (h : List (α × β)) (k : α) (v : β) :
    List (α × β) :=
  match h with
  | [] => [(k, v)]
  | (k0, v0) :: t => if k0 = k then (k0, v) :: t else (k0, v0) :: dictInsert t k v

/-- Loop body of `calculate_cost` (src/calculate_cost.py lines 75-86):
`bags = math.ceil(count/rings_per_bag)`, price accumulation by the
matte/bright category, and `breakdown[name] = (rings, bags)`. -/
def costStep (acc : ℚ × List (String × ℕ × ℤ)) (entry : String × ℕ) :
    ℚ × List (String × ℕ × ℤ) :=
  let bags : ℤ := ⌈(entry.2 : ℚ) / (rings_per_bag : ℚ)⌉
  let cost : ℚ :=
    if hasMatte entry.1 then acc.1 + cost_per_bag_matte * (bags : ℚ)
    else acc.1 + cost_per_bag_bright * (bags : ℚ)
  (cost, dictInsert acc.2 entry.1 (entry.2, bags))

/-- Embedding of `calculate_cost` (src/calculate_cost.py lines 67-88):
iterate over the histogram accumulating total cost and the breakdown. -/
def calculate_cost (rings_by_palette : List (String × ℕ)) :
    ℚ × List (String × ℕ × ℤ) :=
  rings_by_palette.foldl costStep (0, [])

noncomputable section

/-- Python's `math.degrees`: convert radians to degrees. -/
def degrees (x : ℝ) : ℝ := x * 180 / Real.pi

/-- Python's `math.atan2(y, x)`: the angle of the point `(x, y)` in
`(-pi, pi]`, with `atan2 0 0 = 0` (signed float zeros are not
modelled). -/
def atan2 (y x : ℝ) : ℝ :=
  if 0 < x then Real.arctan (y / x)
  else if x < 0 then
    (if 0 ≤ y then Real.arctan (y / x) + Real.pi else Real.arctan (y / x) - Real.pi)
  else
    (if 0 < y then Real.pi / 2 else if y < 0 then -(Real.pi / 2) else 0)

/-- Python's float modulo `x % m` for `m > 0`: `x - m * floor (x / m)`. -/
def pymod (x m : ℝ) : ℝ := x - m * ⌊x / m⌋

/-- Chroma `cs = (a**2 + b**2) ** (1/2)` (src/test.py lines 169-170). -/
def chroma (a b : ℝ) : ℝ := (a ^ 2 + b ^ 2) ^ ((1 : ℝ) / 2)

/-- Adjusted a-component
`ap = a + a/2 * (1 - sqrt(ch**7/(ch**7 + 25**7)))`
(src/test.py lines 174-175). -/
def aprime (a ch : ℝ) : ℝ :=
  a + a / 2 * (1 - Real.sqrt (ch ^ 7 / (ch ^ 7 + 25 ^ 7)))

/-- Adjusted chroma `cp = sqrt(ap**2 + b**2)` (src/test.py lines 177-178). -/
def cprime (ap b : ℝ) : ℝ := Real.sqrt (ap ^ 2 + b ^ 2)

/-- Adjusted hue angle `hp = degrees(atan2(b, ap)) % 360`
(src/test.py lines 183-184). -/
def hprime (b ap : ℝ) : ℝ := pymod (degrees (atan2 b ap)) 360

/-- The hue-difference conditional of `cielab_00`
(src/test.py lines 186-194).  The final `else` assigns nothing, leaving
`dhp = None`; the subsequent `sin(dhp/2)` would raise, modelled as
`none`. -/
def dhp_branch (hp1 hp2 : ℝ) : Option ℝ :=
  if |hp2 - hp1| ≤ 180 then some (hp2 - hp1)
  else if 180 < hp2 - hp1 then some (hp2 - hp1 - 360)
  else if hp2 - hp1 < -180 then some (hp2 - hp1 + 360)
  else none

/-- The mean-hue conditional of `cielab_00` (src/test.py lines 198-206).
The final `else` assigns nothing, leaving `hhp = None`; the subsequent
`cos(hhp - 30)` would raise, modelled as `none`. -/
def hhp_branch (hp1 hp2 : ℝ) : Option ℝ :=
  if |hp1 - hp2| ≤ 180 then some ((hp1 + hp2) / 2)
  else if hp1 + hp2 < 360 then some ((hp1 + hp2 + 360) / 2)
  else if 360 < hp1 + hp2 then some ((hp1 + hp2 - 360) / 2)
  else none

/-- The tail of `cielab_00` after `dhp` and `hhp` are fixed
(src/test.py lines 209-221): the weighting terms `t`, `sl`, `sc`, `sh`,
the rotation term `rt`, and the final combination `de`, transcribed
verbatim (including the `degrees(cos(...))` and trigonometry applied
directly to degree-valued angles, exactly as the source computes). -/
def de_tail (dlp lh chp dcp dHp hhp : ℝ) : ℝ :=
  let kl : ℝ := 1
  let kc : ℝ := 1
  let kh : ℝ := 1
  let t : ℝ := 1 - 0.17 * degrees (Real.cos (hhp - 30)) + 0.24 * Real.cos (2 * hhp)
    + 0.32 * Real.cos (3 * hhp + 6) - 0.20 * Real.cos (4 * hhp - 63)
  let sl : ℝ := 1 + (0.015 * (lh - 50) ^ 2) / Real.sqrt (20 + (lh - 50) ^ 2)
  let sc : ℝ := 1 + 0.045 * chp
  let sh : ℝ := 1 + 0.015 * chp * t
  let rt : ℝ := -2 * Real.sqrt (chp ^ 7 / (chp ^ 7 + 25 ^ 7))
    * Real.sin (60 * Real.exp (-1 * ((hhp - 275) / 25) ^ 2))
  Real.sqrt ((dlp / (kl * sl)) ^ 2 + (dcp / (kc * sc)) ^ 2 + (dHp / (kh * sh)) ^ 2
    + rt * (dcp / (kc * sc)) * (dHp / (kh * sh)))

/-- Embedding of `cielab_00` (src/test.py lines 157-221).  The two
unreachable-or-reachable `else` branches are threaded through `Option`:
a `none` from either conditional makes the whole call fail, exactly as
the Python function raises a `TypeError` on the following line. -/
def cielab_00 (color_1 color_2 : ℝ × ℝ × ℝ) : Option ℝ :=
  let l1 := color_1.1
  let a1 := color_1.2.1
  let b1 := color_1.2.2
  let l2 := color_2.1
  let a2 := color_2.2.1
  let b2 := color_2.2.2
  let dlp := l2 - l1
  let lh := (l1 + l2) / 2
  let cs1 := chroma a1 b1
  let cs2 := chroma a2 b2
  let ch := (cs1 + cs2) / 2
  let ap1 := aprime a1 ch
  let ap2 := aprime a2 ch
  let cp1 := cprime ap1 b1
  let cp2 := cprime ap2 b2
  let chp := (cp1 + cp2) / 2
  let dcp := cp2 - cp1
  let hp1 := hprime b1 ap1
  let hp2 := hprime b2 ap2
  (dhp_branch hp1 hp2).bind fun dhp =>
    (hhp_branch hp1 hp2).map fun hhp =>
      de_tail dlp lh chp dcp (2 * Real.sqrt (cp1 * cp2) * degrees (Real.sin (dhp / 2))) hhp

/-- The pair of adjusted hue angles `(hp1, hp2)` as `cielab_00` computes
them for the two input colors (same prefix computation as `cielab_00`). -/
def hues (color_1 color_2 : ℝ × ℝ × ℝ) : ℝ × ℝ :=
  let a1 := color_1.2.1
  let b1 := color_1.2.2
  let a2 := color_2.2.1
  let b2 := color_2.2.2
  let cs1 := chroma a1 b1
  let cs2 := chroma a2 b2
  let ch := (cs1 + cs2) / 2
  let ap1 := aprime a1 ch
  let ap2 := aprime a2 ch
  (hprime b1 ap1, hprime b2 ap2)

/-- Embedding of `gamma_correction` (src/test.py lines 94-98). -/
def gamma_correction (value : ℝ) : ℝ :=
  if value ≤ 0.04045 then value / 12.92
  else ((value + 0.055) / 1.055) ^ (2.4 : ℝ)

/-- Embedding of `cielab_ntf` (src/test.py lines 102-106), transcribed
verbatim: in particular the lower branch is `value / (72/841) + 4/29`,
i.e. `value * 841/72 + 4/29`, exactly as the source computes. -/
def cielab_ntf (value : ℝ) : ℝ :=
  if 216 / 24389 < value then value ^ ((1 : ℝ) / 3)
  else value / (72 / 841) + 4 / 29

/-- Embedding of `rgb_to_cielab` (src/test.py lines 110-143): channel
normalization, gamma expansion, the sRGB-to-XYZ matrix, D65 white
normalization, and the CIELAB formulas. -/
def rgb_to_cielab (input_color : ℕ × ℕ × ℕ) : ℝ × ℝ × ℝ :=
  let r := gamma_correction ((input_color.1 : ℝ) / 255)
  let g := gamma_correction ((input_color.2.1 : ℝ) / 255)
  let b := gamma_correction ((input_color.2.2 : ℝ) / 255)
  let x := (0.4124564 * r + 0.3575761 * g + 0.1804375 * b) / 0.95047
  let y := (0.2126729 * r + 0.7151522 * g + 0.0721750 * b) / 1.00000
  let z := (0.0193339 * r + 0.1191920 * g + 0.9503041 * b) / 1.08883
  (116 * cielab_ntf y - 16,
   500 * (cielab_ntf x - cielab_ntf y),
   200 * (cielab_ntf y - cielab_ntf z))

end

/-- The result of the matcher is the first entry of the list achieving
the minimum `distE`-distance to `ic`: it splits the list as
`l1 ++ r :: l2` where `r` beats everything weakly and beats everything
before it strictly. -/
def IsFirstMin (ic r : RGB) (l : List RGB) : Prop :=
  ∃ l1 l2, l = l1 ++ r :: l2 ∧
    (∀ q ∈ l, distE ic r ≤ distE ic q) ∧
    (∀ q ∈ l1, distE ic r < distE ic q)

/-! ### Properties of the Euclidean palette matcher -/

theorem ccFold_spec (ic : RGB) (l : List RGB) : ∀ b : RGB,
    ∃ r, l.foldl (ccStep ic) (some b, some (distE ic b)) = (some r, some (distE ic r)) ∧
      IsFirstMin ic r (b :: l) := by
  induction l with
  | nil =>
    intro b
    exact ⟨b, rfl, [], [], rfl, by simp, by simp⟩
  | cons c cs ih =>
    intro b
    rw [List.foldl_cons]
    by_cases h : distE ic c < distE ic b
    · have hstep : ccStep ic (some b, some (distE ic b)) c = (some c, some (distE ic c)) := by
        simp only [ccStep]
        rw [if_pos h]
      rw [hstep]
      obtain ⟨r, heq, l1, l2, hsplit, hmin, hstrict⟩ := ih c
      refine ⟨r, heq, b :: l1, l2, by rw [List.cons_append, hsplit], ?_, ?_⟩
      · intro q hq
        rcases List.mem_cons.mp hq with hq | hq
        · subst hq
          exact le_of_lt (lt_of_le_of_lt (hmin c (List.mem_cons_self c cs)) h)
        · exact hmin q hq
      · intro q hq
        rcases List.mem_cons.mp hq with hq | hq
        · subst hq
          exact lt_of_le_of_lt (hmin c (List.mem_cons_self c cs)) h
        · exact hstrict q hq
    · have hstep : ccStep ic (some b, some (distE ic b)) c = (some b, some (distE ic b)) := by
        simp only [ccStep]
        rw [if_neg h]
      rw [hstep]
      obtain ⟨r, heq, l1, l2, hsplit, hmin, hstrict⟩ := ih b
      refine ⟨r, heq, ?_⟩
      have hbc : distE ic b ≤ distE ic c := not_lt.mp h
      cases l1 with
      | nil =>
        have hb : b = r := by simpa using congrArg (fun t => t.headI) hsplit
        subst hb
        refine ⟨[], c :: cs, by simp, ?_, by simp⟩
        intro q hq
        rcases List.mem_cons.mp hq with hq | hq
        · subst hq; exact le_refl _
        rcases List.mem_cons.mp hq with hq | hq
        · subst hq; exact hbc
        · exact hmin q (by simpa using Or.inr hq)
      | cons b0 l1t =>
        have hb : b = b0 ∧ cs = l1t ++ r :: l2 := by
          constructor
          · simpa using congrArg (fun t => t.headI) hsplit
          · simpa using congrArg (fun t => t.tail) hsplit
        obtain ⟨hb0, hcs⟩ := hb
        subst hb0
        have hrb : distE ic r < distE ic b := hstrict b (List.mem_cons_self b l1t)
        refine ⟨b :: c :: l1t, l2, by rw [hcs]; simp, ?_, ?_⟩
        · intro q hq
          rcases List.mem_cons.mp hq with hq | hq
          · subst hq; exact le_of_lt hrb
          rcases List.mem_cons.mp hq with hq | hq
          · subst hq; exact le_of_lt (lt_of_lt_of_le hrb hbc)
          · exact hmin q (by simpa using Or.inr hq)
        · intro q hq
          rcases List.mem_cons.mp hq with hq | hq
          · subst hq; exact hrb
          rcases List.mem_cons.mp hq with hq | hq
          · subst hq; exact lt_of_lt_of_le hrb hbc
          · exact hstrict q (by simpa using Or.inr hq)

theorem closest_spec (c : RGB) (palette : List RGB) (h : palette ≠ []) :
    ∃ r, closest_color_euclidean c palette = some r ∧ IsFirstMin c r palette := by
  cases palette with
  | nil => exact absurd rfl h
  | cons hd tl =>
    obtain ⟨r, heq, hfm⟩ := ccFold_spec c tl hd
    refine ⟨r, ?_, hfm⟩
    simp only [closest_color_euclidean, List.foldl_cons]
    have hstep : ccStep c (none, none) hd = (some hd, some (distE c hd)) := rfl
    rw [hstep, heq]

theorem mem_of_isFirstMin {ic r : RGB} {l : List RGB} (h : IsFirstMin ic r l) : r ∈ l := by
  obtain ⟨l1, l2, hsplit, -, -⟩ := h
  rw [hsplit]
  exact List.mem_append.mpr (Or.inr (List.mem_cons_self r l2))

/-! ### Properties of the pixel loop and histogram -/

theorem apply_palette_loop_length (palette : List RGB) (hpal : palette ≠ []) :
    ∀ pixels : List RGB, ∃ out, apply_palette_loop palette pixels = some out ∧
      out.length = pixels.length := by
  intro pixels
  induction pixels with
  | nil => exact ⟨[], rfl, rfl⟩
  | cons p ps ih =>
    obtain ⟨out, hout, hlen⟩ := ih
    obtain ⟨r, hr, -⟩ := closest_spec p palette hpal
    refine ⟨r :: out, ?_, by simp [hlen]⟩
    simp only [apply_palette_loop]
    rw [hr, hout]
    rfl

theorem sumCounts_bumpColor (h : List (RGB × ℕ)) (c : RGB) :
    sumCounts (bumpColor h c) = sumCounts h + 1 := by
  induction h with
  | nil => rfl
  | cons kv t ih =>
    obtain ⟨k, n⟩ := kv
    simp only [bumpColor]
    by_cases hk : k = c
    · rw [if_pos hk]
      simp [sumCounts]
      ring
    · rw [if_neg hk]
      simp [sumCounts] at ih ⊢
      omega

theorem sumCounts_foldl_bump (l : List RGB) : ∀ h : List (RGB × ℕ),
    sumCounts (l.foldl bumpColor h) = sumCounts h + l.length := by
  induction l with
  | nil => intro h; simp
  | cons c cs ih =>
    intro h
    rw [List.foldl_cons, ih (bumpColor h c), sumCounts_bumpColor]
    simp only [List.length_cons]
    omega

theorem sumCounts_rings_by_color (pixels : List RGB) :
    sumCounts (rings_by_color pixels) = pixels.length := by
  rw [rings_by_color, sumCounts_foldl_bump]
  simp [sumCounts]

/-! ### Properties of the cost estimator -/

theorem mem_dictInsert {α β : Type} [DecidableEq α] {x : α × β}
    {h : List (α × β)} {k : α} {v : β} (hx : x ∈ dictInsert h k v) :
    x ∈ h ∨ x = (k, v) := by
  induction h with
  | nil => simpa [dictInsert] using hx
  | cons kv t ih =>
    obtain ⟨k0, v0⟩ := kv
    simp only [dictInsert] at hx
    by_cases hk : k0 = k
    · rw [if_pos hk] at hx
      rcases List.mem_cons.mp hx with hx | hx
      · subst hk
        exact Or.inr (by simpa using hx)
      · exact Or.inl (List.mem_cons_of_mem _ hx)
    · rw [if_neg hk] at hx
      rcases List.mem_cons.mp hx with hx | hx
      · exact Or.inl (by simp [hx])
      · rcases ih hx with hx | hx
        · exact Or.inl (List.mem_cons_of_mem _ hx)
        · exact Or.inr hx

theorem costStep_foldl_inv (hist : List (String × ℕ)) :
    ∀ acc : ℚ × List (String × ℕ × ℤ),
      (∀ p ∈ acc.2, p.2.2 = ⌈(p.2.1 : ℚ) / (rings_per_bag : ℚ)⌉) →
      ∀ p ∈ (hist.foldl costStep acc).2, p.2.2 = ⌈(p.2.1 : ℚ) / (rings_per_bag : ℚ)⌉ := by
  induction hist with
  | nil => intro acc hacc; exact hacc
  | cons e es ih =>
    intro acc hacc
    rw [List.foldl_cons]
    refine ih _ ?_
    intro p hp
    rcases mem_dictInsert hp with hp | hp
    · exact hacc p hp
    · rw [hp]

/-! ### Claim C6: the Euclidean matcher returns the first minimizer -/

/-- C6: for every palette with at least one entry and every input color,
`closest_color_euclidean` returns an entry present in the palette such
that no other palette entry has strictly smaller (squared Euclidean)
distance to the input color, and on exact distance ties it returns the
first minimizing entry in the palette's iteration order. -/
theorem closest_color_euclidean_first_min (c : RGB) (palette : List RGB)
    (hpal : palette ≠ []) :
    ∃ r, closest_color_euclidean c palette = some r ∧ r ∈ palette ∧
      (∀ q ∈ palette, distE c r ≤ distE c q) ∧
      ∃ l1 l2, palette = l1 ++ r :: l2 ∧ ∀ q ∈ l1, distE c r < distE c q := by
  obtain ⟨r, heq, hfm⟩ := closest_spec c palette hpal
  obtain ⟨l1, l2, hsplit, hmin, hstrict⟩ := hfm
  exact ⟨r, heq, mem_of_isFirstMin ⟨l1, l2, hsplit, hmin, hstrict⟩, hmin, l1, l2, hsplit, hstrict⟩

/-- Witness for C6 at a concrete palette and color. -/
theorem closest_color_euclidean_first_min_witness :
    (([(0, 0, 1), (0, 0, 2)] : List RGB) ≠ []) ∧
    ∃ r, closest_color_euclidean (0, 0, 0) [(0, 0, 1), (0, 0, 2)] = some r ∧
      r ∈ ([(0, 0, 1), (0, 0, 2)] : List RGB) ∧
      (∀ q ∈ ([(0, 0, 1), (0, 0, 2)] : List RGB),
        distE (0, 0, 0) r ≤ distE (0, 0, 0) q) ∧
      ∃ l1 l2, ([(0, 0, 1), (0, 0, 2)] : List RGB) = l1 ++ r :: l2 ∧
        ∀ q ∈ l1, distE (0, 0, 0) r < distE (0, 0, 0) q :=
  ⟨by decide, closest_color_euclidean_first_min (0, 0, 0) [(0, 0, 1), (0, 0, 2)] (by decide)⟩

/-! ### Claim C7: behavior on the empty palette -/

/-- C7 counterexample: with an empty palette the matcher silently
returns `None` (the undefined match) instead of failing, and the pixel
loop on an empty image completes without raising anything, so no
`InvalidPalette` failure happens before pixels are processed. -/
theorem empty_palette_no_validation :
    closest_color_euclidean (0, 0, 0) [] = none ∧
    apply_palette_loop [] [] = some [] :=
  ⟨rfl, rfl⟩

/-- C7 amended: with an empty palette `closest_color_euclidean` returns
`None` for every input color; `apply_palette` only fails when the first
pixel's `putpixel(None)` raises (so only on a non-empty image), and on
an image with no pixels it completes silently.  No `InvalidPalette`
validation exists. -/
theorem empty_palette_behavior :
    (∀ c : RGB, closest_color_euclidean c [] = none) ∧
    (∀ (p : RGB) (ps : List RGB), apply_palette_loop [] (p :: ps) = none) ∧
    apply_palette_loop [] [] = some [] :=
  ⟨fun _ => rfl, fun _ _ => rfl, rfl⟩

/-! ### Claim C8: quantization preserves length and histogram mass -/

/-- C8: for every non-empty image and non-empty palette the pixel loop
succeeds with a replacement stream of the same length, and the
histogram computed from the replacement stream has counts summing
exactly to the input pixel count. -/
theorem apply_palette_histogram (palette pixels : List RGB)
    (hpal : palette ≠ []) (_hpix : pixels ≠ []) :
    ∃ out, apply_palette_loop palette pixels = some out ∧
      out.length = pixels.length ∧
      sumCounts (rings_by_color out) = pixels.length := by
  obtain ⟨out, hout, hlen⟩ := apply_palette_loop_length palette hpal pixels
  exact ⟨out, hout, hlen, by rw [sumCounts_rings_by_color, hlen]⟩

/-- Witness for C8 at a concrete palette and image. -/
theorem apply_palette_histogram_witness :
    (([(255, 0, 0)] : List RGB) ≠ []) ∧ (([(1, 2, 3), (4, 5, 6)] : List RGB) ≠ []) ∧
    ∃ out, apply_palette_loop [(255, 0, 0)] [(1, 2, 3), (4, 5, 6)] = some out ∧
      out.length = ([(1, 2, 3), (4, 5, 6)] : List RGB).length ∧
      sumCounts (rings_by_color out) = ([(1, 2, 3), (4, 5, 6)] : List RGB).length :=
  ⟨by decide, by decide,
    apply_palette_histogram [(255, 0, 0)] [(1, 2, 3), (4, 5, 6)] (by decide) (by decide)⟩

/-! ### Claim C9: bag counts in the cost estimator -/

theorem calc_cost_red650 : (calculate_cost [("red", 650)]).2 = [("red", (650, 3))] := by
  simp only [calculate_cost, List.foldl_cons, List.foldl_nil, costStep, dictInsert]
  have h : ⌈((("red", (650 : ℕ)).2 : ℚ)) / (rings_per_bag : ℚ)⌉ = 3 := by
    rw [Int.ceil_eq_iff]
    norm_num [rings_per_bag]
  rw [h]

theorem calc_cost_red300 : (calculate_cost [("red", 300)]).2 = [("red", (300, 1))] := by
  simp only [calculate_cost, List.foldl_cons, List.foldl_nil, costStep, dictInsert]
  have h : ⌈((("red", (300 : ℕ)).2 : ℚ)) / (rings_per_bag : ℚ)⌉ = 1 := by
    rw [Int.ceil_eq_iff]
    norm_num [rings_per_bag]
  rw [h]

theorem calc_cost_red0 : (calculate_cost [("red", 0)]).2 = [("red", (0, 0))] := by
  simp only [calculate_cost, List.foldl_cons, List.foldl_nil, costStep, dictInsert]
  have h : ⌈((("red", (0 : ℕ)).2 : ℚ)) / (rings_per_bag : ℚ)⌉ = 0 := by
    rw [Int.ceil_eq_iff]
    norm_num [rings_per_bag]
  rw [h]

/-- C9: every breakdown entry produced by `calculate_cost` records
`bags = ceil(rings / rings_per_bag)`, hence at least one bag whenever
rings are needed and zero bags for a zero count; with
`rings_per_bag = 300` a count of 650 yields 3 bags, 300 yields 1 bag
and 0 yields 0 bags. -/
theorem calculate_cost_bags :
    (∀ (hist : List (String × ℕ)) (n : String) (r : ℕ) (b : ℤ),
        (n, (r, b)) ∈ (calculate_cost hist).2 →
        b = ⌈(r : ℚ) / (rings_per_bag : ℚ)⌉ ∧ (0 < r → 1 ≤ b) ∧ (r = 0 → b = 0)) ∧
    (calculate_cost [("red", 650)]).2 = [("red", (650, 3))] ∧
    (calculate_cost [("red", 300)]).2 = [("red", (300, 1))] ∧
    (calculate_cost [("red", 0)]).2 = [("red", (0, 0))] := by
  refine ⟨?_, calc_cost_red650, calc_cost_red300, calc_cost_red0⟩
  intro hist n r b hmem
  have hb : b = ⌈(r : ℚ) / (rings_per_bag : ℚ)⌉ :=
    costStep_foldl_inv hist (0, []) (by intro p hp; cases hp) (n, (r, b)) hmem
  refine ⟨hb, ?_, ?_⟩
  · intro hr
    rw [hb]
    have hpos : (0 : ℚ) < (r : ℚ) / (rings_per_bag : ℚ) := by
      apply div_pos
      · exact_mod_cast hr
      · norm_num [rings_per_bag]
    exact Int.ceil_pos.mpr hpos
  · intro hr
    rw [hb, hr]
    norm_num

/-- Witness for C9 at a concrete histogram entry. -/
theorem calculate_cost_bags_witness :
    (("red", ((650 : ℕ), (3 : ℤ))) ∈ (calculate_cost [("red", 650)]).2) ∧
    ((3 : ℤ) = ⌈((650 : ℕ) : ℚ) / (rings_per_bag : ℚ)⌉ ∧
      (0 < 650 → (1 : ℤ) ≤ 3) ∧ (650 = 0 → (3 : ℤ) = 0)) :=
  ⟨by rw [calc_cost_red650]; exact List.mem_singleton.mpr rfl,
    calculate_cost_bags.1 [("red", 650)] "red" 650 3
      (by rw [calc_cost_red650]; exact List.mem_singleton.mpr rfl)⟩

/-! ### Claim C2: the nonlinear transfer function's lower branch -/

/-- C2 theorem (code bug): at the in-range input `t = 1/200`
(`t ≤ 216/24389`) the code's `cielab_ntf` returns
`t / (72/841) + 4/29 = t * 841/72 + 4/29`, which differs from the
CIELAB formula `t * 841/108 + 4/29` stated by the spec. -/
theorem cielab_ntf_lower_branch_deviates :
    cielab_ntf (1 / 200) = (1 / 200) / (72 / 841) + 4 / 29 ∧
    cielab_ntf (1 / 200) ≠ (1 / 200) * (841 / 108) + 4 / 29 := by
  have hb : ¬((216 : ℝ) / 24389 < 1 / 200) := by norm_num
  constructor
  · rw [cielab_ntf, if_neg hb]
  · rw [cielab_ntf, if_neg hb]
    norm_num

/-! ### Claims C4 and C1: self-distance of `cielab_00` -/

theorem dhp_branch_self (h : ℝ) : dhp_branch h h = some 0 := by
  rw [dhp_branch, if_pos]
  · rw [sub_self]
  · rw [sub_self, abs_zero]
    norm_num

theorem hhp_branch_self (h : ℝ) : hhp_branch h h = some h := by
  rw [hhp_branch, if_pos]
  · rw [show (h + h) / 2 = h by ring]
  · rw [sub_self, abs_zero]
    norm_num

theorem de_tail_self_zero (lh chp hhp s : ℝ) :
    de_tail 0 lh chp 0 (2 * s * degrees (Real.sin (0 / 2))) hhp = 0 := by
  have h : (2 : ℝ) * s * degrees (Real.sin (0 / 2)) = 0 := by
    norm_num [degrees, Real.sin_zero]
  rw [h]
  simp only [de_tail]
  norm_num [Real.sqrt_zero]

theorem cielab_00_self (A : ℝ × ℝ × ℝ) : cielab_00 A A = some 0 := by
  obtain ⟨l, a, b⟩ := A
  simp only [cielab_00, dhp_branch_self, hhp_branch_self, Option.bind_some, Option.map_some']
  rw [sub_self, sub_self]
  exact congrArg some (de_tail_self_zero _ _ _ _)

/-- C4: the CIEDE2000 distance of any Lab color to itself is exactly 0. -/
theorem cielab_00_diag_zero (A : ℝ × ℝ × ℝ) : cielab_00 A A = some 0 :=
  cielab_00_self A

/-- C1 supporting theorem (code bug): the code does return 0 on the
first reference pair (both colors `(50, 2.6772, -79.7751)`); the second
and third reference pairs diverge numerically (the code computes about
824.81 and 671.94 where the standard CIEDE2000 values are 2.0425 and
1.0000), which no branch of this development can confirm. -/
theorem cielab_00_first_reference_pair :
    cielab_00 (50, 2.6772, -79.7751) (50, 2.6772, -79.7751) = some 0 :=
  cielab_00_self _

/-! ### Claim C3: symmetry of `cielab_00` -/

theorem degrees_neg (x : ℝ) : degrees (-x) = -degrees x := by
  simp only [degrees]
  ring

theorem hhp_branch_comm (hp1 hp2 : ℝ) : hhp_branch hp2 hp1 = hhp_branch hp1 hp2 := by
  simp only [hhp_branch]
  rw [abs_sub_comm hp2 hp1, add_comm hp2 hp1]

theorem dhp_branch_swap (hp1 hp2 : ℝ) :
    dhp_branch hp2 hp1 = Option.map (fun d => -d) (dhp_branch hp1 hp2) := by
  simp only [dhp_branch]
  rw [show hp1 - hp2 = -(hp2 - hp1) by ring, abs_neg]
  generalize hp2 - hp1 = x
  by_cases h1 : |x| ≤ 180
  · rw [if_pos h1, if_pos h1]
    rfl
  · rw [if_neg h1, if_neg h1]
    have habs : 180 < x ∨ x < -180 := by
      rcases lt_or_le 180 x with h | h
      · exact Or.inl h
      rcases lt_or_le x (-180) with h' | h'
      · exact Or.inr h'
      · exact absurd (abs_le.mpr ⟨h', h⟩) h1
    rcases habs with h | h
    · rw [if_neg (by linarith : ¬(180 < -x)), if_pos (by linarith : -x < -180), if_pos h]
      simp only [Option.map_some']
      congr 1
      ring
    · rw [if_pos (by linarith : 180 < -x), if_neg (by linarith : ¬(180 < x)), if_pos h]
      simp only [Option.map_some']
      congr 1
      ring

theorem de_tail_flip (dlp lh chp dcp dHp hhp : ℝ) :
    de_tail (-dlp) lh chp (-dcp) (-dHp) hhp = de_tail dlp lh chp dcp dHp hhp := by
  simp only [de_tail]
  congr 1
  ring

/-- C3: the embedded `cielab_00` is exactly symmetric in its two
arguments (including agreement of the error cases), which entails the
claimed symmetry within any floating tolerance wherever it is defined. -/
theorem cielab_00_comm (A B : ℝ × ℝ × ℝ) : cielab_00 A B = cielab_00 B A := by
  obtain ⟨l1, a1, b1⟩ := A
  obtain ⟨l2, a2, b2⟩ := B
  simp only [cielab_00]
  set cs1 := chroma a1 b1 with hcs1
  set cs2 := chroma a2 b2 with hcs2
  rw [add_comm cs2 cs1]
  set ch := (cs1 + cs2) / 2 with hch
  set ap1 := aprime a1 ch with hap1
  set ap2 := aprime a2 ch with hap2
  set cp1 := cprime ap1 b1 with hcp1
  set cp2 := cprime ap2 b2 with hcp2
  rw [add_comm cp2 cp1, add_comm l2 l1]
  set hp1 := hprime b1 ap1 with hhp1
  set hp2 := hprime b2 ap2 with hhp2
  rw [dhp_branch_swap hp1 hp2, hhp_branch_comm hp1 hp2]
  cases hd : dhp_branch hp1 hp2 with
  | none => rfl
  | some d =>
    cases hh : hhp_branch hp1 hp2 with
    | none => rfl
    | some hv =>
      simp only [Option.map_some', Option.some_bind]
      congr 1
      rw [mul_comm cp2 cp1, show -d / 2 = -(d / 2) by ring, Real.sin_neg, degrees_neg]
      rw [show (2 : ℝ) * Real.sqrt (cp1 * cp2) * -degrees (Real.sin (d / 2)) =
        -(2 * Real.sqrt (cp1 * cp2) * degrees (Real.sin (d / 2))) by ring]
      rw [show l1 - l2 = -(l2 - l1) by ring, show cp1 - cp2 = -(cp2 - cp1) by ring]
      exact (de_tail_flip (l2 - l1) ((l1 + l2) / 2) ((cp1 + cp2) / 2) (cp2 - cp1)
        (2 * Real.sqrt (cp1 * cp2) * degrees (Real.sin (d / 2))) hv).symm

/-! ### Claim C10: partiality of the mean-hue computation -/

theorem dhp_branch_ne_none (hp1 hp2 : ℝ) : dhp_branch hp1 hp2 ≠ none := by
  simp only [dhp_branch]
  split_ifs with h1 h2 h3
  · exact Option.some_ne_none _
  · exact Option.some_ne_none _
  · exact Option.some_ne_none _
  · exact absurd (abs_le.mpr ⟨by linarith, by linarith⟩) h1

theorem hhp_branch_none_iff (hp1 hp2 : ℝ) :
    hhp_branch hp1 hp2 = none ↔ hp1 + hp2 = 360 ∧ 180 < |hp1 - hp2| := by
  simp only [hhp_branch]
  split_ifs with h1 h2 h3
  · simp only [reduceCtorEq, false_iff, not_and]
    intro _ habs
    linarith
  · simp only [reduceCtorEq, false_iff, not_and]
    intro hsum
    linarith
  · simp only [reduceCtorEq, false_iff, not_and]
    intro hsum
    linarith
  · simp only [true_iff]
    exact ⟨le_antisymm (not_lt.mp h3) (not_lt.mp h2), not_le.mp h1⟩

theorem cielab_00_none_iff (c1 c2 : ℝ × ℝ × ℝ) :
    cielab_00 c1 c2 = none ↔ hhp_branch (hues c1 c2).1 (hues c1 c2).2 = none := by
  obtain ⟨l1, a1, b1⟩ := c1
  obtain ⟨l2, a2, b2⟩ := c2
  simp only [cielab_00, hues]
  cases hdb : dhp_branch (hprime b1 (aprime a1 ((chroma a1 b1 + chroma a2 b2) / 2)))
      (hprime b2 (aprime a2 ((chroma a1 b1 + chroma a2 b2) / 2))) with
  | none => exact absurd hdb (dhp_branch_ne_none _ _)
  | some d =>
    simp only [Option.some_bind, Option.map_eq_none']

theorem chroma_nonneg (a b : ℝ) : 0 ≤ chroma a b :=
  Real.rpow_nonneg (by positivity) _

theorem aprime_pos {a ch : ℝ} (ha : 0 < a) (hch : 0 ≤ ch) : 0 < aprime a ch := by
  have hd : (0 : ℝ) < ch ^ 7 + 25 ^ 7 := by positivity
  have hw1 : ch ^ 7 / (ch ^ 7 + 25 ^ 7) ≤ 1 := by
    rw [div_le_one hd]
    nlinarith [pow_pos (show (0:ℝ) < 25 by norm_num) 7]
  have hs : Real.sqrt (ch ^ 7 / (ch ^ 7 + 25 ^ 7)) ≤ 1 := by
    have := Real.sqrt_le_sqrt hw1
    rwa [Real.sqrt_one] at this
  have : 0 ≤ a / 2 * (1 - Real.sqrt (ch ^ 7 / (ch ^ 7 + 25 ^ 7))) := by
    apply mul_nonneg (by linarith)
    linarith
  rw [aprime]
  linarith

theorem pymod_eq_self {x m : ℝ} (hm : 0 < m) (h0 : 0 ≤ x) (h1 : x < m) :
    pymod x m = x := by
  rw [pymod]
  have hf : ⌊x / m⌋ = 0 := by
    rw [Int.floor_eq_zero_iff]
    exact ⟨div_nonneg h0 hm.le, (div_lt_one hm).mpr h1⟩
  rw [hf]
  push_cast
  ring

theorem pymod_add_of_neg {x m : ℝ} (hm : 0 < m) (h0 : -m ≤ x) (h1 : x < 0) :
    pymod x m = x + m := by
  rw [pymod]
  have hf : ⌊x / m⌋ = -1 := by
    rw [Int.floor_eq_iff]
    constructor
    · push_cast
      rw [le_div_iff₀ hm]
      linarith
    · push_cast
      have : x / m < 0 := div_neg_of_neg_of_pos h1 hm
      linarith
  rw [hf]
  push_cast
  ring

theorem arctan_deg_bounds {t : ℝ} (ht : 0 < t) :
    0 < degrees (Real.arctan t) ∧ degrees (Real.arctan t) < 90 := by
  have hpi := Real.pi_pos
  have h0 : 0 < Real.arctan t := by
    have := Real.arctan_strictMono ht
    rwa [Real.arctan_zero] at this
  have h1 : Real.arctan t < Real.pi / 2 := Real.arctan_lt_pi_div_two t
  constructor
  · exact div_pos (by linarith) hpi
  · rw [degrees, div_lt_iff₀ hpi]
    linarith

theorem hprime_of_pos {b ap : ℝ} (hb : 0 < b) (hap : 0 < ap) :
    hprime b ap = degrees (Real.arctan (b / ap)) := by
  rw [hprime, atan2, if_pos hap]
  have := arctan_deg_bounds (div_pos hb hap)
  exact pymod_eq_self (by norm_num) this.1.le (by linarith [this.2])

theorem hprime_of_neg {b ap : ℝ} (hb : b < 0) (hap : 0 < ap) :
    hprime b ap = degrees (Real.arctan (b / ap)) + 360 := by
  rw [hprime, atan2, if_pos hap]
  have hval : Real.arctan (b / ap) = -Real.arctan (-b / ap) := by
    rw [show b / ap = -(-b / ap) by ring, Real.arctan_neg]
  have hbpos : (0 : ℝ) < -b / ap := div_pos (by linarith) hap
  have hbd := arctan_deg_bounds hbpos
  have hneg : degrees (Real.arctan (b / ap)) = -degrees (Real.arctan (-b / ap)) := by
    rw [hval, degrees_neg]
  apply pymod_add_of_neg (by norm_num)
  · rw [hneg]
    linarith [hbd.2]
  · rw [hneg]
    linarith [hbd.1]

theorem hues_bad_pair :
    (hues (50, 10, 10) (50, 10, -10)).1 + (hues (50, 10, 10) (50, 10, -10)).2 = 360 ∧
    180 < |(hues (50, 10, 10) (50, 10, -10)).1 - (hues (50, 10, 10) (50, 10, -10)).2| := by
  simp only [hues]
  have hch : (0 : ℝ) ≤ (chroma 10 10 + chroma 10 (-10)) / 2 := by
    have := chroma_nonneg (10 : ℝ) 10
    have := chroma_nonneg (10 : ℝ) (-10)
    linarith
  have hap : 0 < aprime 10 ((chroma 10 10 + chroma 10 (-10)) / 2) :=
    aprime_pos (by norm_num) hch
  set ap := aprime 10 ((chroma 10 10 + chroma 10 (-10)) / 2) with hapdef
  have h1 : hprime 10 ap = degrees (Real.arctan (10 / ap)) :=
    hprime_of_pos (by norm_num) hap
  have h2 : hprime (-10) ap = degrees (Real.arctan (-10 / ap)) + 360 :=
    hprime_of_neg (by norm_num) hap
  have h2' : hprime (-10) ap = -degrees (Real.arctan (10 / ap)) + 360 := by
    rw [h2, show (-10 : ℝ) / ap = -(10 / ap) by ring, Real.arctan_neg, degrees_neg]
  have h10 : (0 : ℝ) < 10 / ap := div_pos (by norm_num) hap
  have hbd := arctan_deg_bounds h10
  constructor
  · rw [h1, h2']
    ring
  · rw [h1, h2']
    rw [abs_of_neg (by linarith [hbd.2])]
    linarith [hbd.2]

/-- C10: the mean-hue conditional of `cielab_00` is not total: the
function fails (returns `none`) exactly when the two adjusted hue
angles satisfy `hp1 + hp2 = 360` while `|hp1 - hp2| > 180`, and such
Lab input pairs exist; on all other inputs it returns a value. -/
theorem cielab_00_mean_hue_gap :
    (∀ c1 c2 : ℝ × ℝ × ℝ,
      (cielab_00 c1 c2 = none ↔
        (hues c1 c2).1 + (hues c1 c2).2 = 360 ∧
          180 < |(hues c1 c2).1 - (hues c1 c2).2|)) ∧
    ∃ c1 c2 : ℝ × ℝ × ℝ, cielab_00 c1 c2 = none := by
  have main : ∀ c1 c2 : ℝ × ℝ × ℝ,
      (cielab_00 c1 c2 = none ↔
        (hues c1 c2).1 + (hues c1 c2).2 = 360 ∧
          180 < |(hues c1 c2).1 - (hues c1 c2).2|) := by
    intro c1 c2
    rw [cielab_00_none_iff, hhp_branch_none_iff]
  refine ⟨main, (50, 10, 10), (50, 10, -10), ?_⟩
  rw [main]
  exact hues_bad_pair

/-- Witness for C10: a concrete Lab pair on which `cielab_00` fails. -/
theorem cielab_00_mean_hue_gap_witness :
    cielab_00 ((50 : ℝ), 10, 10) ((50 : ℝ), 10, -10) = none :=
  (cielab_00_mean_hue_gap.1 _ _).mpr hues_bad_pair

/-! ### Claim C5: reference values of `rgb_to_cielab` -/

theorem rpow_third_ge {t p : ℝ} (hp : 0 ≤ p) (h : p ^ (3 : ℕ) ≤ t) :
    p ≤ t ^ ((1 : ℝ) / 3) := by
  have hcube : ((p ^ (3 : ℕ) : ℝ)) ^ ((1 : ℝ) / 3) = p := by
    rw [← Real.rpow_natCast p 3, ← Real.rpow_mul hp]
    norm_num
  calc p = ((p ^ (3 : ℕ) : ℝ)) ^ ((1 : ℝ) / 3) := hcube.symm
    _ ≤ t ^ ((1 : ℝ) / 3) := Real.rpow_le_rpow (by positivity) h (by norm_num)

theorem rpow_third_le {t q : ℝ} (ht : 0 ≤ t) (hq : 0 ≤ q) (h : t ≤ q ^ (3 : ℕ)) :
    t ^ ((1 : ℝ) / 3) ≤ q := by
  have hcube : ((q ^ (3 : ℕ) : ℝ)) ^ ((1 : ℝ) / 3) = q := by
    rw [← Real.rpow_natCast q 3, ← Real.rpow_mul hq]
    norm_num
  calc t ^ ((1 : ℝ) / 3) ≤ ((q ^ (3 : ℕ) : ℝ)) ^ ((1 : ℝ) / 3) :=
      Real.rpow_le_rpow ht h (by norm_num)
    _ = q := hcube

theorem gamma_correction_zero : gamma_correction 0 = 0 := by
  rw [gamma_correction, if_pos (by norm_num)]
  norm_num

theorem gamma_correction_one : gamma_correction 1 = 1 := by
  rw [gamma_correction, if_neg (by norm_num)]
  rw [show ((1 : ℝ) + 0.055) / 1.055 = 1 by norm_num]
  exact Real.one_rpow _

theorem cielab_ntf_zero : cielab_ntf 0 = 4 / 29 := by
  rw [cielab_ntf, if_neg (by norm_num)]
  norm_num

theorem rgb_black_exact : rgb_to_cielab (0, 0, 0) = (0, 0, 0) := by
  simp only [ rgb_to_cielab]
  norm_num [gamma_correction_zero, cielab_ntf_zero]

theorem cielab_ntf_one : cielab_ntf 1 = 1 := by
  rw [cielab_ntf, if_pos (by norm_num)]
  exact Real.one_rpow _

theorem cielab_ntf_high {t : ℝ} (h : 216 / 24389 < t) :
    cielab_ntf t = t ^ ((1 : ℝ) / 3) := by
  rw [cielab_ntf, if_pos h]

theorem rgb_white_eq : rgb_to_cielab (255, 255, 255) =
    (116 * (1.0000001 : ℝ) ^ ((1 : ℝ) / 3) - 16,
     500 * (1 - (1.0000001 : ℝ) ^ ((1 : ℝ) / 3)),
     200 * ((1.0000001 : ℝ) ^ ((1 : ℝ) / 3) - 1)) := by
  simp only [ rgb_to_cielab]
  norm_num [gamma_correction_one]
  rw [cielab_ntf_one, cielab_ntf_high (show (216 : ℝ) / 24389 < 10000001 / 10000000 by norm_num)]
  norm_num

theorem white_root_bounds :
    1 ≤ (1.0000001 : ℝ) ^ ((1 : ℝ) / 3) ∧
    (1.0000001 : ℝ) ^ ((1 : ℝ) / 3) ≤ 1.0000001 := by
  constructor
  · exact rpow_third_ge (by norm_num) (by norm_num)
  · exact rpow_third_le (by norm_num) (by norm_num) (by norm_num)

theorem rgb_red_eq : rgb_to_cielab (255, 0, 0) =
    (116 * ((2126729 / 10000000 : ℝ)) ^ ((1 : ℝ) / 3) - 16,
     500 * (((1031141 / 2376175 : ℝ)) ^ ((1 : ℝ) / 3) -
       ((2126729 / 10000000 : ℝ)) ^ ((1 : ℝ) / 3)),
     200 * (((2126729 / 10000000 : ℝ)) ^ ((1 : ℝ) / 3) -
       ((193339 / 10888300 : ℝ)) ^ ((1 : ℝ) / 3))) := by
  simp only [ rgb_to_cielab]
  norm_num [gamma_correction_one, gamma_correction_zero]
  rw [cielab_ntf_high (show (216 : ℝ) / 24389 < 2126729 / 10000000 by norm_num),
    cielab_ntf_high (show (216 : ℝ) / 24389 < 1031141 / 2376175 by norm_num),
    cielab_ntf_high (show (216 : ℝ) / 24389 < 193339 / 10888300 by norm_num)]
  norm_num

theorem red_y_root_bounds :
    0.596903 ≤ ((2126729 / 10000000 : ℝ)) ^ ((1 : ℝ) / 3) ∧
    ((2126729 / 10000000 : ℝ)) ^ ((1 : ℝ) / 3) ≤ 0.596904 := by
  constructor
  · exact rpow_third_ge (by norm_num) (by norm_num)
  · exact rpow_third_le (by norm_num) (by norm_num) (by norm_num)

theorem red_x_root_bounds :
    0.757088 ≤ ((1031141 / 2376175 : ℝ)) ^ ((1 : ℝ) / 3) ∧
    ((1031141 / 2376175 : ℝ)) ^ ((1 : ℝ) / 3) ≤ 0.757089 := by
  constructor
  · exact rpow_third_ge (by norm_num) (by norm_num)
  · exact rpow_third_le (by norm_num) (by norm_num) (by norm_num)

theorem red_z_root_bounds :
    0.260887 ≤ ((193339 / 10888300 : ℝ)) ^ ((1 : ℝ) / 3) ∧
    ((193339 / 10888300 : ℝ)) ^ ((1 : ℝ) / 3) ≤ 0.260888 := by
  constructor
  · exact rpow_third_ge (by norm_num) (by norm_num)
  · exact rpow_third_le (by norm_num) (by norm_num) (by norm_num)

/-- C5: `rgb_to_cielab` maps black to approximately `(0, 0, 0)` and
white to approximately `(100, 0, 0)` within `1e-2`, and pure red to
approximately `(53.24, 80.09, 67.20)` within `1e-1`. -/
theorem rgb_to_cielab_reference_values :
    (|( rgb_to_cielab (0, 0, 0)).1 - 0| ≤ 1 / 100 ∧
     |( rgb_to_cielab (0, 0, 0)).2.1 - 0| ≤ 1 / 100 ∧
     |( rgb_to_cielab (0, 0, 0)).2.2 - 0| ≤ 1 / 100) ∧
    (|( rgb_to_cielab (255, 255, 255)).1 - 100| ≤ 1 / 100 ∧
     |( rgb_to_cielab (255, 255, 255)).2.1 - 0| ≤ 1 / 100 ∧
     |( rgb_to_cielab (255, 255, 255)).2.2 - 0| ≤ 1 / 100) ∧
    (|( rgb_to_cielab (255, 0, 0)).1 - 53.24| ≤ 1 / 10 ∧
     |( rgb_to_cielab (255, 0, 0)).2.1 - 80.09| ≤ 1 / 10 ∧
     |( rgb_to_cielab (255, 0, 0)).2.2 - 67.20| ≤ 1 / 10) := by
  obtain ⟨hw1, hw2⟩ := white_root_bounds
  obtain ⟨hy1, hy2⟩ := red_y_root_bounds
  obtain ⟨hx1, hx2⟩ := red_x_root_bounds
  obtain ⟨hz1, hz2⟩ := red_z_root_bounds
  refine ⟨⟨?_, ?_, ?_⟩, ⟨?_, ?_, ?_⟩, ⟨?_, ?_, ?_⟩⟩
  · rw [rgb_black_exact]; norm_num
  · rw [rgb_black_exact]; norm_num
  · rw [rgb_black_exact]; norm_num
  · rw [rgb_white_eq, abs_le]; constructor <;> linarith
  · rw [rgb_white_eq, abs_le]; constructor <;> linarith
  · rw [rgb_white_eq, abs_le]; constructor <;> linarith
  · rw [rgb_red_eq, abs_le]; constructor <;> linarith
  · rw [rgb_red_eq, abs_le]; constructor <;> linarith
  · rw [rgb_red_eq, abs_le]; constructor <;> linarith

end PixelArt
